import Mathlib

/-!
Verification development for the xcbuild invocation model and its
supporting capabilities.

Shallow embedding of:
- `pbxbuild::Tool::Invocation` and its nested types (`AuxiliaryFile`,
  `Chunk`, `DependencyInfo`, `Executable`) from
  `Libraries/pbxbuild/Headers/pbxbuild/Tool/Invocation.h`;
- `libutil::DefaultFilesystem` (`createDirectory`, `read`, `write`) from
  `Libraries/libutil/Sources/DefaultFilesystem.cpp`;
- `process::DefaultContext` lazily-cached accessors (the implementation
  appended to the Invocation header translation unit);
- the plist `SimpleXML` format stubs;
- the dependency-info parsers and the staleness detector, which are not
  part of the provided sources and are modelled from the specification
  where noted.

Bytes are modelled as `Nat` (values below 256 where it matters), paths as
`String`, byte buffers as `List Nat`.
-/

set_option autoImplicit false

namespace XCBuild

/-! ## Data model: Executable, Chunk, AuxiliaryFile, DependencyInfo, Invocation -/

/-- `Invocation::Executable`: a tagged variant of an external tool path or a
builtin tool name.  The C++ class stores two `ext::optional<std::string>`
fields of which exactly one is set (the private constructor is only reached
through the `External` and `Builtin` factories), so a sum type is the
faithful abstraction. -/
inductive Executable where
  | external (path : String)
  | builtin (name : String)
  deriving Repr, DecidableEq

/-- Modelled from the spec: `Invocation::Executable::Determine` (§4.1; the
implementation file is not among the provided sources, only its declaration
and doc comment in `Invocation.h`).  Classifies an arbitrary string: empty
gives an absent result, a `"builtin-"`-prefixed token gives `Builtin` with
the prefix retained, anything else gives `External` with no existence
check. -/
def Executable.Determine (raw : String) : Option Executable :=
  if raw = "" then
    none
  else if "builtin-".data.isPrefixOf raw.data then
    some (Executable.builtin raw)
  else
    some (Executable.external raw)

/-- `Invocation::AuxiliaryFile::Chunk`: literal byte content or a reference
to a file to copy.  The C++ class stores a `Type` tag plus two optionals of
which the one matching the tag is set (enforced by the `Data`/`File`
factories), so a sum type is the faithful abstraction. -/
inductive Chunk where
  | data (bytes : List Nat)
  | file (path : String)
  deriving Repr, DecidableEq

/-- `Invocation::AuxiliaryFile`: a destination path, an ordered chunk list
concatenated to form the content, and an executable-permission flag. -/
structure AuxiliaryFile where
  path : String
  chunks : List Chunk
  executable : Bool
  deriving Repr, DecidableEq

/-- `dependency::DependencyInfoFormat`: the wire encodings of tool-emitted
dependency info the reader supports.  Modelled from the spec (§4.3, §6): a
Make-rule-style text encoding and a binary length-prefixed encoding (the
enum header is not among the provided sources). -/
inductive DependencyInfoFormat where
  | makefile
  | binary
  deriving Repr, DecidableEq

/-- `Invocation::DependencyInfo`: a (format, path) pair naming a file the
executed tool will write. -/
structure DependencyInfo where
  format : DependencyInfoFormat
  path : String
  deriving Repr, DecidableEq

/-- `pbxbuild::Tool::Invocation`: one build step.  Field set and order follow
the private members of the C++ class; `environment` is the unordered map
modelled as an association list with unique keys by construction site. -/
structure Invocation where
  executable : Option Executable
  arguments : List String
  environment : List (String × String)
  workingDirectory : String
  inputs : List String
  outputs : List String
  phonyInputs : List String
  inputDependencies : List String
  orderDependencies : List String
  dependencyInfo : List DependencyInfo
  auxiliaryFiles : List AuxiliaryFile
  logMessage : String
  showEnvironmentInLog : Bool
  createsProductStructure : Bool
  deriving Repr, DecidableEq

/-- The default-constructed `Invocation()`: every container empty, strings
empty, flags false (the constructor body is not among the provided sources;
value-initialized members modelled from the spec's lifecycle description). -/
def Invocation.init : Invocation :=
  { executable := none
    arguments := []
    environment := []
    workingDirectory := ""
    inputs := []
    outputs := []
    phonyInputs := []
    inputDependencies := []
    orderDependencies := []
    dependencyInfo := []
    auxiliaryFiles := []
    logMessage := ""
    showEnvironmentInLog := false
    createsProductStructure := false }

/-- The non-const accessor `std::vector<std::string> &arguments()`
(Invocation.h line 186): returns a mutable reference to `_arguments`, so a
caller's assignment through it replaces the field.  Modelled as the induced
functional update. -/
def Invocation.setArguments (inv : Invocation) (a : List String) : Invocation :=
  { inv with arguments := a }

/-- The non-const accessor `std::vector<std::string> &outputs()`
(Invocation.h line 207), modelled as the induced functional update. -/
def Invocation.setOutputs (inv : Invocation) (o : List String) : Invocation :=
  { inv with outputs := o }

/-- The non-const accessor `std::string &workingDirectory()`
(Invocation.h line 190), modelled as the induced functional update. -/
def Invocation.setWorkingDirectory (inv : Invocation) (w : String) : Invocation :=
  { inv with workingDirectory := w }

/-! ## DefaultFilesystem::read -/

/-- One `std::fread(buf, count, 1, fp)` of a single `count`-byte item at
position `pos`: it returns 1 (success) exactly when `count` bytes are
available from `pos`, in which case it yields those bytes; a zero-byte
read is skipped by the caller and trivially succeeds. -/
def freadExact (file : List Nat) (pos count : Nat) : Option (List Nat) :=
  if count = 0 then
    some []
  else if pos + count ≤ file.length then
    some ((file.drop pos).take count)
  else
    none

/-- `DefaultFilesystem::read` (DefaultFilesystem.cpp lines 163-207): opens the
file, seeks to the end to learn its size, then: with an explicit `length`,
fails if `offset + length` exceeds the size and otherwise reads exactly
`length` bytes from `offset`; with no `length`, keeps `size` equal to the
whole file size and reads `size` bytes starting from `offset` (the seek to
`offset` always succeeds, the subsequent full-size `fread` does not unless
the whole range fits). -/
def DefaultFilesystem.read (file : List Nat) (offset : Nat) (length : Option Nat) :
    Option (List Nat) :=
  match length with
  | some n => if offset + n > file.length then none else freadExact file offset n
  | none => freadExact file offset file.length

/-! ## DefaultFilesystem::write and auxiliary-file materialization -/

/-- Resolves one chunk's bytes: literal data verbatim, file references read
from the (modelled) filesystem. -/
def Chunk.resolve (fs : String → Option (List Nat)) : Chunk → Option (List Nat)
  | Chunk.data bytes => some bytes
  | Chunk.file path => fs path

/-- The exact byte sequence of an auxiliary file: each chunk's resolved bytes
concatenated in order; `none` if any referenced chunk file cannot be read. -/
def AuxiliaryFile.content (fs : String → Option (List Nat)) (aux : AuxiliaryFile) :
    Option (List Nat) :=
  (aux.chunks.mapM (Chunk.resolve fs)).map List.flatten

/-- Observable effect of one write operation on the destination path: the
successive contents visible at that path while the operation runs (the last
entry is the state at completion), and whether the operation went through a
temporary location plus rename. -/
structure WriteTrace where
  duringStates : List (List Nat)
  usedTemporaryAndRename : Bool
  deriving Repr, DecidableEq

/-- `DefaultFilesystem::write` (DefaultFilesystem.cpp lines 209-228): opens
the destination itself with `fopen(path, "wb")`, which truncates the file in
place (state `[]` visible at the final path), then a single `fwrite` stores
the full buffer (state `contents`).  No temporary path and no rename are
involved; `DefaultFilesystem` has no rename operation at all. -/
def DefaultFilesystem.write (contents : List Nat) : WriteTrace :=
  { duringStates := [[], contents], usedTemporaryAndRename := false }

/-- Materializing an auxiliary file: concatenate the chunk bytes and hand
them to `DefaultFilesystem::write` targeting the file's path. -/
def materialize (fs : String → Option (List Nat)) (aux : AuxiliaryFile) :
    Option WriteTrace :=
  (AuxiliaryFile.content fs aux).map DefaultFilesystem.write

/-- The states visible at the destination before the operation completes. -/
def intermediateStates (t : WriteTrace) : List (List Nat) :=
  t.duringStates.dropLast

/-! ## DefaultFilesystem::createDirectory -/

/-- Directory-tree state for `createDirectory`: paths are modelled as lists
of components (`[]` is the root); `dirs` are the directories that exist,
`blocked` the paths where creating a directory fails for a reason other
than already existing (e.g. permission denied or a file in the way). -/
structure DirState where
  dirs : List (List String)
  blocked : List (List String)
  deriving Repr, DecidableEq

/-- POSIX `mkdir` as observed through the source's
`::mkdir(...) != 0 && errno != EEXIST` test: an existing directory counts
as success (EEXIST), a blocked path fails, otherwise creation succeeds when
the parent exists and fails with ENOENT when it does not. -/
def mkdir (st : DirState) (p : List String) : Bool × DirState :=
  if p ∈ st.dirs then
    (true, st)
  else if p ∈ st.blocked then
    (false, st)
  else if p.dropLast ∈ st.dirs then
    (true, { st with dirs := p :: st.dirs })
  else
    (false, st)

/-- The loop of `DefaultFilesystem::createDirectory`: rebuild the path one
component at a time from the outermost component inward (`cur` is the
prefix built so far, mirroring the source's `current` string), invoke
`mkdir` on each successive prefix, and stop with `false` on the first
failure other than EEXIST. -/
def createDirGo (st : DirState) (cur : List String) : List String → Bool × DirState
  | [] => (true, st)
  | c :: rest =>
    let r := mkdir st (cur ++ [c])
    if r.1 then createDirGo r.2 (cur ++ [c]) rest else (false, r.2)

/-- `DefaultFilesystem::createDirectory` (DefaultFilesystem.cpp lines
131-161): decomposes the path into components and creates each ancestor
from the outermost down to the full path.  The decomposition via
`FSUtil::GetDirectoryName`/`GetBaseName` is not among the provided sources;
paths are modelled directly as component lists (modelled from the spec's
"create directory recursively" capability). -/
def DefaultFilesystem.createDirectory (st : DirState) (comps : List String) :
    Bool × DirState :=
  createDirGo st [] comps

/-- The successive path prefixes `createDirectory` runs `mkdir` on, starting
from the already-built prefix `cur`. -/
def pathPrefixesFrom (cur : List String) : List String → List (List String)
  | [] => []
  | c :: rest => (cur ++ [c]) :: pathPrefixesFrom (cur ++ [c]) rest

/-- All successive path prefixes of a component list, outermost first. -/
def pathPrefixes (comps : List String) : List (List String) :=
  pathPrefixesFrom [] comps

/-! ## DependencyInfo reader (modelled from the spec; the parser sources are
not among the provided files) -/

/-- The parse-error taxonomy of the dependency-info reader (spec §7,
`DependencyInfoParseError`). -/
inductive DependencyInfoParseError where
  | truncatedRecord
  | unterminatedLine
  deriving Repr, DecidableEq

/-- 4-byte little-endian encoding of a record length (spec §6). -/
def encodeLE32 (n : Nat) : List Nat :=
  [n % 256, n / 256 % 256, n / 65536 % 256, n / 16777216 % 256]

/-- Value of a 4-byte little-endian length field. -/
def decodeLE32 (b0 b1 b2 b3 : Nat) : Nat :=
  b0 + 256 * b1 + 65536 * b2 + 16777216 * b3

/-- One record of the binary wire format: a 1-byte tag (0 = input), the
4-byte little-endian byte length, then the raw path bytes (spec §6). -/
def encodeBinaryRecord (p : List Nat) : List Nat :=
  0 :: (encodeLE32 p.length ++ p)

/-- The records of the binary wire format for a set of input paths. -/
def encodeBinaryRecords (paths : List (List Nat)) : List Nat :=
  (paths.map encodeBinaryRecord).flatten

/-- Modelled from the spec: the binary dependency-info wire format for a set
of input paths: a 1-byte version, then the tagged length-prefixed records,
terminated by end-of-file (spec §6). -/
def serializeBinary (paths : List (List Nat)) : List Nat :=
  1 :: encodeBinaryRecords paths

/-- Modelled from the spec: parsing the record sequence of the binary
dependency-info format — repeatedly take a 1-byte tag, a 4-byte
little-endian length and that many path bytes until end-of-file; anything
shorter is a truncated record.  The structural `fuel` argument only bounds
the recursion depth: every record consumes at least five bytes, so callers
pass `bytes.length + 1`, which can never run out. -/
def parseBinaryRecords : Nat → List Nat → Except DependencyInfoParseError (List (Nat × List Nat))
  | _, [] => Except.ok []
  | 0, _ :: _ => Except.error DependencyInfoParseError.truncatedRecord
  | fuel + 1, t :: b0 :: b1 :: b2 :: b3 :: rest =>
    let n := decodeLE32 b0 b1 b2 b3
    if n ≤ rest.length then
      match parseBinaryRecords fuel (rest.drop n) with
      | Except.ok recs => Except.ok ((t, rest.take n) :: recs)
      | Except.error e => Except.error e
    else
      Except.error DependencyInfoParseError.truncatedRecord
  | _ + 1, _ => Except.error DependencyInfoParseError.truncatedRecord

/-- Modelled from the spec: the binary dependency-info parser — a 1-byte
version header followed by the records; the discovered inputs are the
records with tag 0 (spec §4.3, §6). -/
def parseBinary (bytes : List Nat) : Except DependencyInfoParseError (List (List Nat)) :=
  match bytes with
  | [] => Except.error DependencyInfoParseError.truncatedRecord
  | _version :: rest =>
    match parseBinaryRecords (rest.length + 1) rest with
    | Except.ok recs => Except.ok ((recs.filter fun r => r.1 == 0).map Prod.snd)
    | Except.error e => Except.error e

/-- Modelled from the spec: tokenizing the input list of a Make-style
dependency line (spec §4.3, §6): tokens are separated by spaces, tabs or
newlines; a backslash-newline continuation acts as a separator; a
backslash-escaped byte (e.g. `\x5c` + space) belongs to the token; a lone
backslash at end-of-input is an unterminated line. -/
def mfTokens : List Nat → List Nat → Except DependencyInfoParseError (List (List Nat))
  | [], cur => Except.ok (if cur = [] then [] else [cur])
  | [92], _cur => Except.error DependencyInfoParseError.unterminatedLine
  | 92 :: 10 :: rest, cur =>
    if cur = [] then
      mfTokens rest []
    else
      match mfTokens rest [] with
      | Except.ok ts => Except.ok (cur :: ts)
      | Except.error e => Except.error e
  | 92 :: b :: rest, cur => mfTokens rest (cur ++ [b])
  | b :: rest, cur =>
    if b = 32 ∨ b = 9 ∨ b = 10 then
      if cur = [] then
        mfTokens rest []
      else
        match mfTokens rest [] with
        | Except.ok ts => Except.ok (cur :: ts)
        | Except.error e => Except.error e
    else
      mfTokens rest (cur ++ [b])

/-- Bytes after the first colon of a Make-style rule, if any. -/
def splitAtColon : List Nat → Option (List Nat)
  | [] => none
  | 58 :: rest => some rest
  | _ :: rest => splitAtColon rest

/-- Modelled from the spec: the Make-rule-style dependency parser
(`output: input input ...`): the discovered inputs are the tokens after the
first colon; an empty file reports nothing; a nonempty file with no rule
separator, or one whose line never terminates (trailing continuation
backslash), is malformed (spec §4.3). -/
def parseMakefile (bytes : List Nat) : Except DependencyInfoParseError (List (List Nat)) :=
  if bytes = [] then
    Except.ok []
  else
    match splitAtColon bytes with
    | none => Except.error DependencyInfoParseError.unterminatedLine
    | some rest => mfTokens rest []

/-- Modelled from the spec: `Parse(format, path)` of the DependencyInfo
reader (§4.3): a file that is absent from the (modelled) filesystem yields
an empty discovered set, a present file is parsed according to its
format. -/
def ParseDependencyInfo (format : DependencyInfoFormat)
    (fs : String → Option (List Nat)) (path : String) :
    Except DependencyInfoParseError (List (List Nat)) :=
  match fs path with
  | none => Except.ok []
  | some contents =>
    match format with
    | DependencyInfoFormat.makefile => parseMakefile contents
    | DependencyInfoFormat.binary => parseBinary contents

/-! ## Staleness detector (modelled from the spec §4.4; the detector's
sources are not among the provided files) -/

/-- The recorded description of an invocation: the parts compared against
prior state by staleness rule 3 (executable, arguments, environment,
working directory). -/
structure InvocationDescription where
  executable : Option Executable
  arguments : List String
  environment : List (String × String)
  workingDirectory : String
  deriving Repr, DecidableEq

/-- The current description of an invocation. -/
def Invocation.description (inv : Invocation) : InvocationDescription :=
  { executable := inv.executable
    arguments := inv.arguments
    environment := inv.environment
    workingDirectory := inv.workingDirectory }

/-- Prior build state for one invocation: the recorded description (if any)
and the discovered dependency-info inputs recorded by the previous build
(already parsed from its DependencyInfo files). -/
structure PriorState where
  description : Option InvocationDescription
  discoveredInputs : List String
  deriving Repr, DecidableEq

/-- Whether a path is present with a modification time strictly newer than
`oldest`; an absent path has no modification time and never counts as
newer. -/
def newerThan (fs : String → Option Nat) (oldest : Nat) (p : String) : Bool :=
  match fs p with
  | some t => decide (oldest < t)
  | none => false

/-- Modelled from the spec: `IsStale(invocation, priorState)` (§4.4), with
`fs` giving each path's modification time (`none` = absent).  Decision
procedure in order: (1) a missing declared output is stale; (2) a declared
input, `inputDependencies` entry or recorded discovered dependency-info
input newer than the oldest output is stale; (4) `phonyInputs` participate
in rule (2) only if present on disk; (3) a description differing from the
recorded one is stale; otherwise the invocation is up to date
(`orderDependencies` never participate). -/
def IsStale (fs : String → Option Nat) (prior : PriorState) (inv : Invocation) : Bool :=
  if inv.outputs.any (fun o => (fs o).isNone) then
    true
  else
    match (inv.outputs.filterMap fs).min? with
    | none => decide (prior.description ≠ some inv.description)
    | some oldest =>
      if (inv.inputs ++ inv.inputDependencies ++ prior.discoveredInputs).any
          (newerThan fs oldest) then
        true
      else if inv.phonyInputs.any (newerThan fs oldest) then
        true
      else
        decide (prior.description ≠ some inv.description)

/-- The invocations a scheduler run executes: exactly those the staleness
detector reports stale; the rest are skipped (spec §4.4, §4.5). -/
def executedInvocations (fs : String → Option Nat)
    (pairs : List (Invocation × PriorState)) : List Invocation :=
  (pairs.filter fun ip => IsStale fs ip.2 ip.1).map Prod.fst

/-- A compile step `cc -c a.c -o a.o`, used as the concrete up-to-date
scenario. -/
def exInv : Invocation :=
  { Invocation.init with
      executable := some (Executable.external "cc")
      arguments := ["-c", "a.c", "-o", "a.o"]
      inputs := ["a.c"]
      outputs := ["a.o"] }

/-- Modification times for the concrete scenario: the output `a.o` (time 10)
is newer than the input `a.c` (time 5); the previously discovered header
`a.h` is absent. -/
def exFs : String → Option Nat := fun p =>
  if p = "a.o" then some 10
  else if p = "a.c" then some 5
  else none

/-- Prior state for the concrete scenario: the recorded description matches
the current one and the previous build discovered `a.h`. -/
def exPrior : PriorState :=
  { description := some exInv.description
    discoveredInputs := ["a.h"] }

/-! ## DefaultContext lazily-cached accessors -/

/-- The persistent state of one `DefaultContext` cached accessor across
calls within a process: the `static` cache pointer (`none` before any
computation) and how many times the initialization lambda has run. -/
structure OnceCache where
  cached : Option String
  computations : Nat
  deriving Repr, DecidableEq

/-- One call to `DefaultContext::currentDirectory()` (and structurally
identical accessors such as `executablePath()` and
`environmentVariables()`): the body holds a `static std::string const
*directory` modelled by `cached`, but declares `std::once_flag flag;` as a
LOCAL variable, freshly constructed on every call.  `std::call_once(flag,
…)` therefore finds the flag unused on every call, runs the lambda again,
and overwrites the cache with a newly allocated snapshot of `env` (the
process state the lambda reads). -/
def DefaultContext.currentDirectoryCall (env : String) (st : OnceCache) :
    OnceCache × String :=
  let flagAlreadyCalled := false
  if flagAlreadyCalled then
    (st, st.cached.getD "")
  else
    let st' : OnceCache := { cached := some env, computations := st.computations + 1 }
    (st', st'.cached.getD "")

/-! ## Plist SimpleXML format stubs -/

/-- A plist object, an opaque hierarchical value from the serialization
library's point of view (the `Object` hierarchy is outside the provided
sources; the variants are irrelevant to the SimpleXML stubs, which never
inspect the object). -/
inductive PlistObject where
  | string (s : String)
  | boolean (b : Bool)
  | array (items : List PlistObject)
  deriving Repr

/-- The `SimpleXML` format descriptor: only an encoding tag (modelled as a
plain marker, since `Encoding` is opaque here). -/
structure SimpleXML where
  encoding : Nat
  deriving Repr, DecidableEq

/-- `Format<SimpleXML>::Serialize`: unconditionally returns no bytes and the
error string `"not yet implemented"` (src/unnamed/part_000 lines 55-60). -/
def SimpleXML.Serialize (_object : PlistObject) (_format : SimpleXML) :
    Option (List Nat) × String :=
  (none, "not yet implemented")

/-- `Format<SimpleXML>::Identify`: not a standard format, never auto-detected;
unconditionally returns null (src/unnamed/part_000 lines 32-38). -/
def SimpleXML.Identify (_contents : List Nat) : Option SimpleXML :=
  none

end XCBuild

namespace XCBuild

/-! ## Theorems: executable resolution (C2), invocation mutability (C3),
SimpleXML stubs (C10) -/

/-- C2: `Executable::Determine` returns an absent result on the empty string;
returns `Builtin(raw)` with the prefix retained when `raw` begins with
`"builtin-"`; and otherwise returns `External(raw)`.  The embedding is a
pure function of the string alone, so the classification has no side
effects and consults no filesystem. -/
theorem Executable.Determine_classification :
    Executable.Determine "" = none ∧
    (∀ raw : String, "builtin-".data.isPrefixOf raw.data →
      Executable.Determine raw = some (Executable.builtin raw)) ∧
    (∀ raw : String, raw ≠ "" → ¬ "builtin-".data.isPrefixOf raw.data →
      Executable.Determine raw = some (Executable.external raw)) := by
  refine ⟨rfl, ?_, ?_⟩
  · intro raw h
    have hne : raw ≠ "" := by
      intro he
      rw [he] at h
      exact absurd h (by decide)
    simp [Executable.Determine, hne, h]
  · intro raw hne h
    simp [Executable.Determine, hne, h]

/-- C2 witness: the classification evaluated at concrete inputs. -/
theorem Executable.Determine_classification_witness :
    Executable.Determine "" = none ∧
    Executable.Determine "builtin-copy" = some (Executable.builtin "builtin-copy") ∧
    Executable.Determine "/usr/bin/cc" = some (Executable.external "/usr/bin/cc") := by
  refine ⟨Executable.Determine_classification.1, ?_, ?_⟩
  · exact Executable.Determine_classification.2.1 "builtin-copy" (by decide)
  · exact Executable.Determine_classification.2.2 "/usr/bin/cc" (by decide) (by decide)

/-- C3 counterexample: a constructed `Invocation` is not immutable — writing
through the non-const accessor `arguments()` changes the stored field, so
there is an operation on a constructed `Invocation` that mutates it. -/
theorem Invocation.mutation_counterexample :
    (Invocation.init.setArguments ["x"]).arguments ≠ Invocation.init.arguments := by
  decide

/-- C3 (amended): a constructed `Invocation` is not immutable: alongside the
const accessors, the class exposes non-const reference accessors through
which any field can be reassigned after construction; such a write replaces
exactly the targeted field and leaves every other field unchanged (shown
for the `arguments()` accessor, representative of the uniform accessor
pattern of Invocation.h lines 183-256). -/
theorem Invocation.setArguments_updates_only_arguments
    (inv : Invocation) (a : List String) :
    (inv.setArguments a).arguments = a ∧
    (inv.setArguments a).executable = inv.executable ∧
    (inv.setArguments a).environment = inv.environment ∧
    (inv.setArguments a).workingDirectory = inv.workingDirectory ∧
    (inv.setArguments a).inputs = inv.inputs ∧
    (inv.setArguments a).outputs = inv.outputs ∧
    (inv.setArguments a).phonyInputs = inv.phonyInputs ∧
    (inv.setArguments a).inputDependencies = inv.inputDependencies ∧
    (inv.setArguments a).orderDependencies = inv.orderDependencies ∧
    (inv.setArguments a).dependencyInfo = inv.dependencyInfo ∧
    (inv.setArguments a).auxiliaryFiles = inv.auxiliaryFiles ∧
    (inv.setArguments a).logMessage = inv.logMessage ∧
    (inv.setArguments a).showEnvironmentInLog = inv.showEnvironmentInLog ∧
    (inv.setArguments a).createsProductStructure = inv.createsProductStructure := by
  refine ⟨rfl, rfl, rfl, rfl, rfl, rfl, rfl, rfl, rfl, rfl, rfl, rfl, rfl, rfl⟩

/-- C9: `DefaultFilesystem::read` succeeds exactly when the requested range
fits in the file: with an explicit length `n` it succeeds iff
`offset + n ≤ size` and then yields exactly the `n` bytes starting at
`offset`; with no explicit length it attempts to read the full file size
starting at `offset`, succeeding iff the range `[offset, offset + size)`
lies within the file (vacuously for an empty file), so every call with
positive offset and no length on a non-empty file fails. -/
theorem DefaultFilesystem.read_range_check (file : List Nat) (o : Nat) :
    (∀ n, (DefaultFilesystem.read file o (some n)).isSome ↔ o + n ≤ file.length) ∧
    (∀ n, o + n ≤ file.length →
      DefaultFilesystem.read file o (some n) = some ((file.drop o).take n)) ∧
    ((DefaultFilesystem.read file o none).isSome ↔ (file.length = 0 ∨ o = 0)) ∧
    (0 < o → 0 < file.length → DefaultFilesystem.read file o none = none) := by
  refine ⟨?_, ?_, ?_, ?_⟩
  · intro n
    simp only [DefaultFilesystem.read, freadExact]
    split_ifs <;> simp <;> omega
  · intro n h
    simp only [DefaultFilesystem.read, freadExact]
    rw [if_neg (by omega)]
    by_cases h2 : n = 0
    · subst h2
      simp
    · rw [if_neg h2, if_pos (by omega)]
  · simp only [DefaultFilesystem.read, freadExact]
    split_ifs with h1 h2
    · simp only [Option.isSome_some, true_iff]
      exact Or.inl h1
    · simp only [Option.isSome_some, true_iff]
      omega
    · simp only [Option.isSome_none]
      constructor
      · intro hfalse
        exact absurd hfalse (by decide)
      · intro hor
        rcases hor with h | h
        · exact (h1 h).elim
        · exact (h2 (by omega)).elim
  · intro ho hlen
    simp only [DefaultFilesystem.read, freadExact]
    have h1 : ¬ (file.length = 0) := by omega
    have h2 : ¬ (o + file.length ≤ file.length) := by omega
    rw [if_neg h1, if_neg h2]

/-- C9 witness: the range check evaluated on the three-byte file
`[10, 20, 30]` at offset 1. -/
theorem DefaultFilesystem.read_range_check_witness :
    DefaultFilesystem.read [10, 20, 30] 1 (some 2) = some [20, 30] ∧
    DefaultFilesystem.read [10, 20, 30] 1 none = none := by
  constructor
  · have h := (DefaultFilesystem.read_range_check [10, 20, 30] 1).2.1 2 (by decide)
    simpa using h
  · exact (DefaultFilesystem.read_range_check [10, 20, 30] 1).2.2.2
      (by decide) (by decide)

/-- C4 counterexample: materialization does not go through a temporary
location plus rename; with the single-chunk auxiliary file holding literal
bytes `[1, 2]`, the write truncates the destination in place, so the empty
file — a proper prefix of the final content — is visible at the final path
at an intermediate step of the operation. -/
theorem materialize_partial_state_counterexample :
    materialize (fun _ => none) ⟨"out", [Chunk.data [1, 2]], false⟩
      = some (DefaultFilesystem.write [1, 2]) ∧
    [] ∈ intermediateStates (DefaultFilesystem.write [1, 2]) ∧
    List.isPrefixOf ([] : List Nat) [1, 2] = true ∧
    ([] : List Nat) ≠ [1, 2] ∧
    (DefaultFilesystem.write [1, 2]).usedTemporaryAndRename = false := by
  refine ⟨rfl, ?_, rfl, by decide, rfl⟩
  simp [intermediateStates, DefaultFilesystem.write]

/-- C4 (amended): materialization writes the concatenated chunk bytes
directly to the final path with no temporary location and no rename: the
open truncates the destination, so the empty file is visible there during
the operation, and only at completion does the final path hold exactly the
concatenated content. -/
theorem materialize_writes_in_place (fs : String → Option (List Nat))
    (aux : AuxiliaryFile) (c : List Nat)
    (h : AuxiliaryFile.content fs aux = some c) :
    materialize fs aux = some (DefaultFilesystem.write c) ∧
    (DefaultFilesystem.write c).usedTemporaryAndRename = false ∧
    [] ∈ intermediateStates (DefaultFilesystem.write c) ∧
    (DefaultFilesystem.write c).duringStates.getLast? = some c := by
  refine ⟨?_, rfl, ?_, ?_⟩
  · simp [materialize, h]
  · simp [intermediateStates, DefaultFilesystem.write]
  · simp [DefaultFilesystem.write]

/-- C4 (amended) witness: a one-chunk auxiliary file materialized through
the direct in-place write. -/
theorem materialize_writes_in_place_witness :
    materialize (fun _ => none) ⟨"script", [Chunk.data [7, 8]], true⟩
      = some (DefaultFilesystem.write [7, 8]) ∧
    AuxiliaryFile.content (fun _ => none) ⟨"script", [Chunk.data [7, 8]], true⟩
      = some [7, 8] := by
  refine ⟨?_, rfl⟩
  exact (materialize_writes_in_place (fun _ => none) ⟨"script", [Chunk.data [7, 8]], true⟩
    [7, 8] rfl).1

/-- Correctness of the `createDirectory` loop, generalized over the prefix
built so far: assuming the current prefix exists, success is equivalent to
every remaining prefix being either already present or not blocked, success
leaves every remaining prefix present, and the set of existing directories
only grows. -/
theorem createDirGo_spec (comps : List String) :
    ∀ (st0 st : DirState) (cur : List String),
      cur ∈ st.dirs →
      st.blocked = st0.blocked →
      (∀ d, d ∈ st0.dirs → d ∈ st.dirs) →
      (∀ d, d ∈ st.dirs → d ∈ st0.dirs ∨ d ∉ st0.blocked) →
      (((createDirGo st cur comps).1 = true) ↔
        ∀ p ∈ pathPrefixesFrom cur comps, p ∈ st0.dirs ∨ p ∉ st0.blocked) ∧
      ((createDirGo st cur comps).1 = true →
        ∀ p ∈ pathPrefixesFrom cur comps, p ∈ (createDirGo st cur comps).2.dirs) ∧
      (∀ d, d ∈ st.dirs → d ∈ (createDirGo st cur comps).2.dirs) := by
  induction comps with
  | nil =>
    intro st0 st cur _ _ _ _
    refine ⟨?_, ?_, ?_⟩
    · simp [createDirGo, pathPrefixesFrom]
    · intro _ p hp
      simp [pathPrefixesFrom] at hp
    · intro d hd
      simpa [createDirGo] using hd
  | cons c rest ih =>
    intro st0 st cur hcur hbl hmono hinv
    by_cases h1 : cur ++ [c] ∈ st.dirs
    · have hmk : mkdir st (cur ++ [c]) = (true, st) := by
        simp [mkdir, h1]
      have hred : createDirGo st cur (c :: rest)
          = createDirGo st (cur ++ [c]) rest := by
        simp [createDirGo, hmk]
      obtain ⟨ih1, ih2, ih3⟩ := ih st0 st (cur ++ [c]) h1 hbl hmono hinv
      refine ⟨?_, ?_, ?_⟩
      · rw [hred, ih1]
        constructor
        · intro hrest p hp
          have hp' : p ∈ (cur ++ [c]) :: pathPrefixesFrom (cur ++ [c]) rest := by
            simpa only [pathPrefixesFrom] using hp
          rcases List.mem_cons.mp hp' with hpe | hpm
          · exact hpe ▸ hinv _ h1
          · exact hrest p hpm
        · intro hall p hp
          refine hall p ?_
          simp only [pathPrefixesFrom]
          exact List.mem_cons_of_mem _ hp
      · intro hob p hp
        rw [hred] at hob ⊢
        have hp' : p ∈ (cur ++ [c]) :: pathPrefixesFrom (cur ++ [c]) rest := by
          simpa only [pathPrefixesFrom] using hp
        rcases List.mem_cons.mp hp' with hpe | hpm
        · exact hpe ▸ ih3 _ h1
        · exact ih2 hob p hpm
      · intro d hd
        rw [hred]
        exact ih3 d hd
    · by_cases h2 : cur ++ [c] ∈ st.blocked
      · have hmk : mkdir st (cur ++ [c]) = (false, st) := by
          simp [mkdir, h1, h2]
        have hred : createDirGo st cur (c :: rest) = (false, st) := by
          simp [createDirGo, hmk]
        refine ⟨?_, ?_, ?_⟩
        · rw [hred]
          constructor
          · intro hf
            simp at hf
          · intro hall
            have hgood := hall (cur ++ [c]) (by
              simp only [pathPrefixesFrom]
              exact List.mem_cons_self _ _)
            rcases hgood with hin | hnb
            · exact absurd (hmono _ hin) h1
            · exact absurd (hbl ▸ h2) hnb
        · rw [hred]
          intro hf
          simp at hf
        · intro d hd
          rw [hred]
          exact hd
      · have hpar : (cur ++ [c]).dropLast ∈ st.dirs := by
          rw [List.dropLast_concat]
          exact hcur
        have hmk : mkdir st (cur ++ [c])
            = (true, { st with dirs := (cur ++ [c]) :: st.dirs }) := by
          simp [mkdir, h1, h2, hcur]
        have hred : createDirGo st cur (c :: rest)
            = createDirGo { st with dirs := (cur ++ [c]) :: st.dirs } (cur ++ [c]) rest := by
          simp [createDirGo, hmk]
        have hnb0 : cur ++ [c] ∉ st0.blocked := hbl ▸ h2
        obtain ⟨ih1, ih2, ih3⟩ := ih st0 { st with dirs := (cur ++ [c]) :: st.dirs }
          (cur ++ [c]) (by simp) hbl
          (fun d hd => List.mem_cons_of_mem _ (hmono d hd))
          (fun d hd => by
            rcases List.mem_cons.mp hd with hde | hdm
            · exact Or.inr (hde ▸ hnb0)
            · exact hinv d hdm)
        refine ⟨?_, ?_, ?_⟩
        · rw [hred, ih1]
          constructor
          · intro hrest p hp
            have hp' : p ∈ (cur ++ [c]) :: pathPrefixesFrom (cur ++ [c]) rest := by
              simpa only [pathPrefixesFrom] using hp
            rcases List.mem_cons.mp hp' with hpe | hpm
            · exact Or.inr (hpe ▸ hnb0)
            · exact hrest p hpm
          · intro hall p hp
            refine hall p ?_
            simp only [pathPrefixesFrom]
            exact List.mem_cons_of_mem _ hp
        · intro hob p hp
          rw [hred] at hob ⊢
          have hp' : p ∈ (cur ++ [c]) :: pathPrefixesFrom (cur ++ [c]) rest := by
            simpa only [pathPrefixesFrom] using hp
          rcases List.mem_cons.mp hp' with hpe | hpm
          · exact hpe ▸ ih3 _ (List.mem_cons_self _ _)
          · exact ih2 hob p hpm
        · intro d hd
          rw [hred]
          exact ih3 d (List.mem_cons_of_mem _ hd)

/-- C8: `DefaultFilesystem::createDirectory` creates the directory
recursively: it attempts each path prefix from the outermost component down
to the full path (embodied in the definition of `createDirGo`), treats an
already-existing component as success (the EEXIST branch of `mkdir`),
returns true exactly when every component is already present or creatable
— in which case every component exists afterwards — and returns false as
soon as creating some component fails for a reason other than already
existing. -/
theorem DefaultFilesystem.createDirectory_recursive (st : DirState)
    (comps : List String) (hroot : [] ∈ st.dirs) :
    (((DefaultFilesystem.createDirectory st comps).1 = true) ↔
      ∀ p ∈ pathPrefixes comps, p ∈ st.dirs ∨ p ∉ st.blocked) ∧
    ((DefaultFilesystem.createDirectory st comps).1 = true →
      ∀ p ∈ pathPrefixes comps,
        p ∈ (DefaultFilesystem.createDirectory st comps).2.dirs) := by
  have h := createDirGo_spec comps st st [] hroot rfl
    (fun d hd => hd) (fun d hd => Or.inl hd)
  exact ⟨h.1, h.2.1⟩

/-- C8 witness: creating `a/b` from a state holding only the root directory
succeeds and leaves both `a` and `a/b` present. -/
theorem DefaultFilesystem.createDirectory_recursive_witness :
    (DefaultFilesystem.createDirectory ⟨[[]], []⟩ ["a", "b"]).1 = true ∧
    ["a"] ∈ (DefaultFilesystem.createDirectory ⟨[[]], []⟩ ["a", "b"]).2.dirs ∧
    ["a", "b"] ∈ (DefaultFilesystem.createDirectory ⟨[[]], []⟩ ["a", "b"]).2.dirs := by
  have h := DefaultFilesystem.createDirectory_recursive ⟨[[]], []⟩ ["a", "b"] (by decide)
  have ht : (DefaultFilesystem.createDirectory ⟨[[]], []⟩ ["a", "b"]).1 = true :=
    h.1.mpr (by decide)
  refine ⟨ht, ?_, ?_⟩
  · exact h.2 ht ["a"] (by decide)
  · exact h.2 ht ["a", "b"] (by decide)

/-- C5: for every dependency-info format, a file absent from the filesystem
parses to an empty discovered-input set, not an error; malformed content is
a parse error, not a crash and not a silently empty set: a truncated
length-prefixed binary record (`[1, 0, 7, 0]`: version byte, then a tag
with an incomplete length field) yields `truncatedRecord`, and a Make-style
line ending in a lone continuation backslash (`"a: b\"` as bytes
`[97, 58, 32, 98, 92]`) yields `unterminatedLine`. -/
theorem ParseDependencyInfo_absent_and_malformed :
    (∀ (format : DependencyInfoFormat) (fs : String → Option (List Nat)) (path : String),
      fs path = none → ParseDependencyInfo format fs path = Except.ok []) ∧
    ParseDependencyInfo DependencyInfoFormat.binary (fun _ => some [1, 0, 7, 0]) "deps"
      = Except.error DependencyInfoParseError.truncatedRecord ∧
    ParseDependencyInfo DependencyInfoFormat.makefile (fun _ => some [97, 58, 32, 98, 92]) "deps"
      = Except.error DependencyInfoParseError.unterminatedLine := by
  refine ⟨?_, rfl, rfl⟩
  intro format fs path h
  simp [ParseDependencyInfo, h]

/-- C5 witness: the absent-file case evaluated for both formats on a
filesystem with no files. -/
theorem ParseDependencyInfo_absent_and_malformed_witness :
    ParseDependencyInfo DependencyInfoFormat.binary (fun _ => none) "missing"
      = Except.ok [] ∧
    ParseDependencyInfo DependencyInfoFormat.makefile (fun _ => none) "missing"
      = Except.ok [] := by
  constructor
  · exact ParseDependencyInfo_absent_and_malformed.1 _ _ _ rfl
  · exact ParseDependencyInfo_absent_and_malformed.1 _ _ _ rfl

/-- The little-endian length field decodes back to the encoded length for
any value that fits in four bytes. -/
theorem decodeLE32_encodeLE32 (n : Nat) (h : n < 4294967296) :
    decodeLE32 (n % 256) (n / 256 % 256) (n / 65536 % 256) (n / 16777216 % 256) = n := by
  simp only [decodeLE32]
  omega

/-- Each binary record occupies at least five bytes, so the encoded stream
is at least as long as the number of records. -/
theorem encodeBinaryRecords_length_ge (paths : List (List Nat)) :
    paths.length ≤ (encodeBinaryRecords paths).length := by
  induction paths with
  | nil => simp [encodeBinaryRecords]
  | cons p ps ih =>
    simp only [encodeBinaryRecords, List.map_cons, List.flatten_cons, List.length_append,
      List.length_cons, encodeBinaryRecord, encodeLE32] at ih ⊢
    simp at ih ⊢
    omega

/-- Parsing the encoded record stream recovers every path with its input
tag, for any fuel exceeding the record count. -/
theorem parseBinaryRecords_encode (paths : List (List Nat)) :
    ∀ fuel, paths.length < fuel →
      (∀ p ∈ paths, p.length < 4294967296) →
      parseBinaryRecords fuel (encodeBinaryRecords paths)
        = Except.ok (paths.map fun p => (0, p)) := by
  induction paths with
  | nil =>
    intro fuel _ _
    have he : encodeBinaryRecords [] = [] := rfl
    rw [he]
    cases fuel <;> rfl
  | cons p ps ih =>
    intro fuel hf hlen
    obtain ⟨f, rfl⟩ : ∃ f, fuel = f + 1 := ⟨fuel - 1, by omega⟩
    have hp : p.length < 4294967296 := hlen p (List.mem_cons_self _ _)
    have hrec : encodeBinaryRecords (p :: ps)
        = 0 :: (p.length % 256) :: (p.length / 256 % 256) :: (p.length / 65536 % 256) ::
          (p.length / 16777216 % 256) :: (p ++ encodeBinaryRecords ps) := by
      simp [encodeBinaryRecords, encodeBinaryRecord, encodeLE32]
    have hdec := decodeLE32_encodeLE32 p.length hp
    have htake : (p ++ encodeBinaryRecords ps).take p.length = p := List.take_left _ _
    have hdrop : (p ++ encodeBinaryRecords ps).drop p.length = encodeBinaryRecords ps :=
      List.drop_left _ _
    have hle : p.length ≤ (p ++ encodeBinaryRecords ps).length := by
      simp
    rw [hrec]
    simp only [parseBinaryRecords, hdec, if_pos hle, htake, hdrop,
      ih f (by simpa using Nat.lt_of_succ_lt_succ hf)
        (fun q hq => hlen q (List.mem_cons_of_mem _ hq))]
    simp

/-- C6: encoding a set of paths in the binary dependency-info wire format
(1-byte version, then repeated records of a 1-byte tag, 4-byte
little-endian length and the raw path bytes) and parsing the encoded bytes
reproduces exactly the same set of paths. -/
theorem parseBinary_serializeBinary_roundtrip (paths : List (List Nat))
    (h : ∀ p ∈ paths, p.length < 4294967296) :
    parseBinary (serializeBinary paths) = Except.ok paths := by
  have hlen : paths.length < (encodeBinaryRecords paths).length + 1 :=
    Nat.lt_succ_of_le (encodeBinaryRecords_length_ge paths)
  have hrec := parseBinaryRecords_encode paths ((encodeBinaryRecords paths).length + 1) hlen h
  have hfilter : ∀ (l : List (List Nat)),
      ((l.map fun p => ((0 : Nat), p)).filter (fun r => r.1 == 0)).map Prod.snd = l := by
    intro l
    induction l with
    | nil => rfl
    | cons q qs ihq => simp [ihq]
  simp only [serializeBinary, parseBinary, hrec, hfilter]

/-- C6 witness: the round trip evaluated on the single path `[104, 105]`,
whose encoding is `[1, 0, 2, 0, 0, 0, 104, 105]`. -/
theorem parseBinary_serializeBinary_roundtrip_witness :
    serializeBinary [[104, 105]] = [1, 0, 2, 0, 0, 0, 104, 105] ∧
    parseBinary (serializeBinary [[104, 105]]) = Except.ok [[104, 105]] := by
  constructor
  · rfl
  · exact parseBinary_serializeBinary_roundtrip [[104, 105]] (by
      intro p hp
      rw [List.mem_singleton] at hp
      subst hp
      decide)

/-- C1: for every invocation whose declared outputs all exist, whose every
declared input (including phony inputs), `inputDependencies` entry and
recorded discovered dependency-info input is not newer than the oldest
output, and whose recorded description matches the current one, `IsStale`
returns false — so each such invocation is skipped and a scheduler run over
a list of such invocations executes zero invocations. -/
theorem IsStale_upToDate_false (fs : String → Option Nat)
    (pairs : List (Invocation × PriorState))
    (H : ∀ ip ∈ pairs,
      (∀ o ∈ ip.1.outputs, (fs o).isSome) ∧
      (∀ p ∈ ip.1.inputs ++ ip.1.phonyInputs ++ ip.1.inputDependencies
          ++ ip.2.discoveredInputs,
        ∀ t, fs p = some t →
          ∀ oldest, (ip.1.outputs.filterMap fs).min? = some oldest → t ≤ oldest) ∧
      ip.2.description = some ip.1.description) :
    (∀ ip ∈ pairs, IsStale fs ip.2 ip.1 = false) ∧
    executedInvocations fs pairs = [] := by
  have hstale : ∀ ip ∈ pairs, IsStale fs ip.2 ip.1 = false := by
    intro ip hip
    obtain ⟨h1, h2, h3⟩ := H ip hip
    have hout : ip.1.outputs.any (fun o => (fs o).isNone) = false := by
      rw [List.any_eq_false]
      intro o ho hcontra
      have hs := h1 o ho
      rw [Option.isNone_iff_eq_none] at hcontra
      rw [hcontra] at hs
      exact absurd hs (by decide)
    unfold IsStale
    rw [hout]
    simp only [Bool.false_eq_true, if_false]
    cases hmin : (ip.1.outputs.filterMap fs).min? with
    | none =>
      simp [h3]
    | some oldest =>
      have hnewer : ∀ p ∈ ip.1.inputs ++ ip.1.phonyInputs ++ ip.1.inputDependencies
          ++ ip.2.discoveredInputs, newerThan fs oldest p = false := by
        intro p hp
        unfold newerThan
        cases hfs : fs p with
        | none => rfl
        | some t =>
          have hle := h2 p hp t hfs oldest hmin
          exact decide_eq_false (by omega)
      have ha : (ip.1.inputs ++ ip.1.inputDependencies ++ ip.2.discoveredInputs).any
          (newerThan fs oldest) = false := by
        rw [List.any_eq_false]
        intro p hp
        have hp' : p ∈ ip.1.inputs ++ ip.1.phonyInputs ++ ip.1.inputDependencies
            ++ ip.2.discoveredInputs := by
          simp only [List.mem_append] at hp ⊢
          tauto
        simp [hnewer p hp']
      have hb : ip.1.phonyInputs.any (newerThan fs oldest) = false := by
        rw [List.any_eq_false]
        intro p hp
        have hp' : p ∈ ip.1.inputs ++ ip.1.phonyInputs ++ ip.1.inputDependencies
            ++ ip.2.discoveredInputs := by
          simp only [List.mem_append]
          tauto
        simp [hnewer p hp']
      simp [ha, hb, h3]
      refine ⟨?_, ?_, ?_⟩ <;> intro x hx <;>
        exact hnewer x (by simp only [List.mem_append]; tauto)
  refine ⟨hstale, ?_⟩
  unfold executedInvocations
  have hfil : (pairs.filter fun ip => IsStale fs ip.2 ip.1) = [] := by
    rw [List.filter_eq_nil_iff]
    intro ip hip
    simp [hstale ip hip]
  rw [hfil]
  rfl

/-- C1 witness: the concrete compile step with its output newer than its
input and its discovered header absent is reported up to date, and the
scheduler run over it executes nothing. -/
theorem IsStale_upToDate_false_witness :
    IsStale exFs exPrior exInv = false ∧
    executedInvocations exFs [(exInv, exPrior)] = [] := by
  have H : ∀ ip ∈ [(exInv, exPrior)],
      (∀ o ∈ ip.1.outputs, (exFs o).isSome) ∧
      (∀ p ∈ ip.1.inputs ++ ip.1.phonyInputs ++ ip.1.inputDependencies
          ++ ip.2.discoveredInputs,
        ∀ t, exFs p = some t →
          ∀ oldest, (ip.1.outputs.filterMap exFs).min? = some oldest → t ≤ oldest) ∧
      ip.2.description = some ip.1.description := by
    intro ip hip
    rw [List.mem_singleton] at hip
    subst hip
    refine ⟨by decide, ?_, rfl⟩
    intro p hp t ht oldest hold
    have hp' : p = "a.c" ∨ p = "a.h" := by
      simpa [exInv, exPrior, Invocation.init] using hp
    have hmin : ((exInv.outputs.filterMap exFs)).min? = some 10 := by decide
    rw [hmin] at hold
    have holdeq : oldest = 10 := (Option.some.inj hold).symm
    subst holdeq
    rcases hp' with rfl | rfl
    · have he : exFs "a.c" = some 5 := by decide
      rw [he] at ht
      have := Option.some.inj ht
      omega
    · have he : exFs "a.h" = none := by decide
      rw [he] at ht
      cases ht
  have h := IsStale_upToDate_false exFs [(exInv, exPrior)] H
  exact ⟨h.1 (exInv, exPrior) (List.mem_singleton_self _), h.2⟩

/-- C7 (evaluating the code at the failing input): because each accessor's
`std::once_flag` is a local variable constructed fresh on every call, the
initialization lambda runs on every call, not only the first: after one
call the computation count is 1, and a second call within the same process
raises it to 2, contradicting exactly-once computation. -/
theorem DefaultContext.currentDirectory_recomputes_every_call :
    ((DefaultContext.currentDirectoryCall "/work" ⟨none, 0⟩).1).computations = 1 ∧
    ((DefaultContext.currentDirectoryCall "/work"
        (DefaultContext.currentDirectoryCall "/work" ⟨none, 0⟩).1).1).computations = 2 := by
  exact ⟨rfl, rfl⟩

/-- C10: the SimpleXML plist format is deserialize-only: `Serialize` returns
no bytes with the error string `"not yet implemented"` for every object and
format instance, and `Identify` returns null for every byte content, so
SimpleXML is never auto-detected and a serialize-then-deserialize round
trip through it is impossible (no serialized bytes ever exist). -/
theorem SimpleXML.deserialize_only :
    (∀ (o : PlistObject) (f : SimpleXML),
      SimpleXML.Serialize o f = (none, "not yet implemented")) ∧
    (∀ c : List Nat, SimpleXML.Identify c = none) := by
  exact ⟨fun _ _ => rfl, fun _ => rfl⟩

end XCBuild
